import Mathlib

/-!
Verification of the scripted JSON-RPC mock server
(`mock-server/src/index.ts`): a shallow embedding of its template engine,
pattern matcher, sequence tracker, reaction dispatcher and control-channel
handler, together with theorems about the behaviour the documentation
describes.
-/

set_option autoImplicit false
set_option maxRecDepth 8192

namespace MockServer

/-- JSON values, as in the source's `JSONValue` type.  Numbers are modelled
as integers (all values appearing in the scripts under study are integral
and compared by exact equality). -/
inductive JSONValue where
  | obj : List (String × JSONValue) → JSONValue
  | arr : List JSONValue → JSONValue
  | str : String → JSONValue
  | num : Int → JSONValue
  | bool : Bool → JSONValue
  | null : JSONValue

/-- The JavaScript `typeof` tag of a `JSONValue`: `null`, objects and
arrays all have tag `"object"`. -/
inductive JSType where
  | object | string | number | boolean
deriving DecidableEq, BEq

def JSONValue.jsType : JSONValue → JSType
  | .obj _ => .object
  | .arr _ => .object
  | .null => .object
  | .str _ => .string
  | .num _ => .number
  | .bool _ => .boolean

/-- `TemplateParams` from the source: both maps are optional (the fields
may be absent from the object sent with `$/setTemplateParams`). -/
structure TemplateParams where
  expand : Option (List (String × String))
  replace : Option (List (String × JSONValue))

/-- Error kinds of the engine, named after the specification's list.
Every one of them is fatal: the process prints the error and exits with
status 1.  `noFuel` is the marker for exhaustion of the recursion fuel of
the deep matcher: the source's recursion can diverge when `replace`
parameters are cyclic, so the embedding is fuel-indexed. -/
inductive MockError where
  | templateLookup
  | templateSchema
  | sequenceMismatch
  | unexpectedMessage
  | reactionResultMismatch
  | noFuel
deriving DecidableEq, BEq

/-- A character of the JavaScript regex class `\w`: `[A-Za-z0-9_]`. -/
def isWordChar (c : Char) : Bool :=
  c.isAlpha || c.isDigit || c == '_'

/-- Attempt to match the regex `\$\{(\w+)\}` at the very head of the
character list; on success return the captured name and the characters
after the closing brace. -/
def matchAt : List Char → Option (String × List Char)
  | '$' :: '\x7b' :: rest =>
    let ws := rest.takeWhile isWordChar
    match rest.dropWhile isWordChar with
    | '\x7d' :: tail => if ws.isEmpty then none else some (String.mk ws, tail)
    | _ => none
  | _ => none

/-- First match of `\$\{(\w+)\}` in the list, scanning left to right as a
JavaScript global regex does: returns the characters before the match, the
captured name, and the characters after the match. -/
def findFirst : List Char → Option (List Char × String × List Char)
  | [] => none
  | c :: cs =>
    match matchAt (c :: cs) with
    | some (name, post) => some ([], name, post)
    | none =>
      match findFirst cs with
      | some (pre, name, post) => some (c :: pre, name, post)
      | none => none

/-- Whole-string match of `/^#\{(\w+)\}$/`, returning the captured name. -/
def replaceWholeMatch (s : String) : Option String :=
  match s.data with
  | '#' :: '\x7b' :: rest =>
    let ws := rest.takeWhile isWordChar
    match rest.dropWhile isWordChar with
    | ['\x7d'] => if ws.isEmpty then none else some (String.mk ws)
    | _ => none
  | _ => none

/-- The source's adjustment `expandRegExp.lastIndex += replacement.length
- (to - from)`, applied to the value `to` that the regex engine stored
after the match; computed over the integers exactly as JavaScript does. -/
def adjustLastIndex (start stop replLen : Nat) : Nat :=
  ((stop : Int) + ((replLen : Int) - ((stop : Int) - (start : Int)))).toNat

/-- The `while (expandResult)` loop of `processTemplate`: the state is the
current string (the source splices replacements into `template`) and the
regex's `lastIndex`.  The fuel argument dominates the iteration count;
`fuel = template.length + 1` always suffices because every iteration
consumes at least the four delimiter characters ahead of `lastIndex`. -/
def expandLoopAux (lk : String → Option String) :
    Nat → List Char → Nat → Except MockError (List Char)
  | 0, template, _ => .ok template
  | fuel + 1, template, lastIndex =>
    match findFirst (template.drop lastIndex) with
    | none => .ok template
    | some (pre, param, _) =>
      match lk param with
      | none => .error .templateLookup
      | some replacement =>
        let start := lastIndex + pre.length
        let stop := start + param.length + 3
        let template' :=
          template.take start ++ replacement.data ++ template.drop stop
        expandLoopAux lk fuel template'
          (adjustLastIndex start stop replacement.length)

/-- Lookup in the optional `expand` map, mirroring
`templateParams.expand && (param in templateParams.expand)`. -/
def lookupExpand (tp : TemplateParams) (param : String) : Option String :=
  match tp.expand with
  | none => none
  | some m => m.lookup param

/-- Lookup in the optional `replace` map. -/
def lookupReplace (tp : TemplateParams) (param : String) : Option JSONValue :=
  match tp.replace with
  | none => none
  | some m => m.lookup param

/-- `processTemplate` from the source: whole-string `#{name}` replacement
first, otherwise the `${name}` expansion loop. -/
def processTemplate (tp : TemplateParams) (template : String) :
    Except MockError JSONValue :=
  match replaceWholeMatch template with
  | some name =>
    match lookupReplace tp name with
    | some v => .ok v
    | none => .error .templateLookup
  | none =>
    match expandLoopAux (lookupExpand tp) (template.length + 1) template.data 0 with
    | .error e => .error e
    | .ok cs => .ok (.str (String.mk cs))

/-- Modelled from the spec: the left-to-right `${name}` substitution of
§4.1, written as the obviously correct structural recursion — the text
before the first placeholder is kept, the placeholder is replaced by its
value, and scanning continues after the replacement without rescanning
it.  Used as the reference against which the source's splice-and-adjust
loop is checked. -/
def expandSpecAux (lk : String → Option String) :
    Nat → List Char → Except MockError (List Char)
  | 0, s => .ok s
  | fuel + 1, s =>
    match findFirst s with
    | none => .ok s
    | some (pre, param, post) =>
      match lk param with
      | none => .error .templateLookup
      | some replacement =>
        match expandSpecAux lk fuel post with
        | .error e => .error e
        | .ok rest => .ok (pre ++ replacement.data ++ rest)

/-- The element-by-element loop of `matchArrays`, with the recursive deep
match passed in as `rec` (the lengths have already been checked). -/
def matchPairsWith (rec : JSONValue → JSONValue → Except MockError Bool) :
    List JSONValue → List JSONValue → Except MockError Bool
  | [], _ => .ok true
  | _ :: _, [] => .ok true
  | r :: rs, t :: ts =>
    match rec r t with
    | .error e => .error e
    | .ok false => .ok false
    | .ok true => matchPairsWith rec rs ts

/-- `matchArrays` from the source: equal length, then pairwise match. -/
def matchArraysWith (rec : JSONValue → JSONValue → Except MockError Bool)
    (ref test : List JSONValue) : Except MockError Bool :=
  if ref.length = test.length then matchPairsWith rec ref test else .ok false

/-- `matchObjects` from the source: every key of the pattern object is
itself template-expanded (a non-string expansion is a schema error), must
exist in the live object, and the two values must match recursively.
Keys of the live object that the pattern does not mention are ignored. -/
def matchObjectsWith (tp : TemplateParams)
    (rec : JSONValue → JSONValue → Except MockError Bool) :
    List (String × JSONValue) → List (String × JSONValue) →
    Except MockError Bool
  | [], _ => .ok true
  | (keyTemplate, v) :: rest, test =>
    match processTemplate tp keyTemplate with
    | .error e => .error e
    | .ok (.str key) =>
      match test.lookup key with
      | none => .ok false
      | some w =>
        match rec v w with
        | .error e => .error e
        | .ok false => .ok false
        | .ok true => matchObjectsWith tp rec rest test
    | .ok _ => .error .templateSchema

/-- `matchDeepEqual` from the source, indexed by fuel (the source can
recurse through `replace`-parameter expansion without bound, so the
embedding spends one unit of fuel per level).  A string pattern is first
template-expanded; a `typeof` mismatch is no match; `null`, scalars,
arrays and objects are then compared as the source does. -/
def matchDeepEqualF (tp : TemplateParams) :
    Nat → JSONValue → JSONValue → Except MockError Bool
  | 0, _, _ => .error .noFuel
  | fuel + 1, ref0, test =>
    match (match ref0 with | .str s => processTemplate tp s | r => .ok r) with
    | .error e => .error e
    | .ok ref =>
      if ref.jsType != test.jsType then .ok false
      else
        match ref, test with
        | .null, .null => .ok true
        | .str a, .str b => .ok (a == b)
        | .num a, .num b => .ok (a == b)
        | .bool a, .bool b => .ok (a == b)
        | .arr rs, .arr ts => matchArraysWith (matchDeepEqualF tp fuel) rs ts
        | .obj rf, .obj tf =>
          matchObjectsWith tp (matchDeepEqualF tp fuel) rf tf
        | _, _ => .ok false

/-- The `type` discriminator of a scripted `TestMessage`. -/
inductive MsgType where
  | request | notification
deriving DecidableEq, BEq

/-- `TestMessage` from the source.  `intermediate` holds the reaction
messages sent after this one matches. -/
inductive TestMessage where
  | mk (kind : MsgType) (method : String) (params : Option JSONValue)
      (intermediate : Option (List TestMessage)) (result : Option JSONValue)

def TestMessage.kind : TestMessage → MsgType
  | .mk k _ _ _ _ => k

def TestMessage.method : TestMessage → String
  | .mk _ m _ _ _ => m

def TestMessage.params : TestMessage → Option JSONValue
  | .mk _ _ p _ _ => p

def TestMessage.intermediate : TestMessage → Option (List TestMessage)
  | .mk _ _ _ i _ => i

def TestMessage.result : TestMessage → Option JSONValue
  | .mk _ _ _ _ r => r

/-- One entry of the script's `sequence`: either a single ordered message
(`type` `"request"` or `"notification"`) or a `request-unordered` group. -/
inductive Step where
  | msg (m : TestMessage)
  | unordered (content : List TestMessage)

/-- `TestSetup` from the source (the script file). -/
structure TestSetup where
  name : String
  initializeResult : Option JSONValue
  sequence : List Step

/-- The mutable state of the server process: the sequence cursor, the
unordered-group completion array and the template parameters. -/
structure ServerState where
  sequenceIndex : Nat
  unorderedReceived : List Bool
  templateParams : TemplateParams

/-- `matchMessage` from the source: the method must be equal; a scripted
`params` pattern must be matched by present live params; an absent
scripted `params` matches only absent live params. -/
def matchMessage (tp : TemplateParams) (fuel : Nat) (msg : TestMessage)
    (method : String) (params : Option JSONValue) : Except MockError Bool :=
  if msg.method = method then
    match msg.params, params with
    | some mp, some p => matchDeepEqualF tp fuel mp p
    | some _, none => .ok false
    | none, p => .ok p.isNone
  else .ok false

/-- `processRequestResult` from the source: an `undefined` reply requires
an `undefined` expected result and vice versa; otherwise the expected
result is used as the pattern against the actual reply. -/
def processRequestResult (tp : TemplateParams) (fuel : Nat)
    (result expectedResult : Option JSONValue) : Except MockError Unit :=
  match result with
  | none =>
    match expectedResult with
    | none => .ok ()
    | some _ => .error .reactionResultMismatch
  | some r =>
    match expectedResult with
    | none => .error .reactionResultMismatch
    | some er =>
      match matchDeepEqualF tp fuel er r with
      | .error e => .error e
      | .ok true => .ok ()
      | .ok false => .error .reactionResultMismatch

/-- `processIntermediate` from the source.  Outbound notifications need no
confirmation; outbound requests await the environment's reply, which is
verified by `processRequestResult`.  `env` abstracts the remote peer:
it maps an outbound request's method and params to the reply. -/
def processIntermediate (tp : TemplateParams)
    (env : String → Option JSONValue → Option JSONValue) (fuel : Nat) :
    List TestMessage → Except MockError Unit
  | [] => .ok ()
  | option :: rest =>
    match option.kind with
    | .notification => processIntermediate tp env fuel rest
    | .request =>
      match processRequestResult tp fuel (env option.method option.params)
          option.result with
      | .error e => .error e
      | .ok () => processIntermediate tp env fuel rest

/-- The member scan of the `request-unordered` branch: starting at member
index `i`, skip members already received (`unorderedReceived[i]` truthy)
and members that do not match, and return the first remaining match
together with its index. -/
def findUnorderedMatch (tp : TemplateParams) (fuel : Nat)
    (received : List Bool) (method : String) (params : Option JSONValue) :
    Nat → List TestMessage → Except MockError (Option (Nat × TestMessage))
  | _, [] => .ok none
  | i, option :: rest =>
    if received.getD i false then
      findUnorderedMatch tp fuel received method params (i + 1) rest
    else
      match matchMessage tp fuel option method params with
      | .error e => .error e
      | .ok false => findUnorderedMatch tp fuel received method params (i + 1) rest
      | .ok true => .ok (some (i, option))

/-- The outcome of `handleCustomRequests` when it does handle the method. -/
inductive CustomAction where
  | sleepDone
  | terminate (code : Int)
  | setParams (tp : TemplateParams)

/-- The unchecked TypeScript cast `params as TemplateParams` performed by
`handleSetTemplateParams`: the `expand`/`replace` fields are taken as
maps when they are objects (only string values of `expand` are meaningful
downstream, matching the declared interface). -/
def toTemplateParams (fields : List (String × JSONValue)) : TemplateParams where
  expand :=
    match fields.lookup "expand" with
    | some (.obj l) =>
      some (l.filterMap fun kv =>
        match kv.2 with
        | .str s => some (kv.1, s)
        | _ => none)
    | _ => none
  replace :=
    match fields.lookup "replace" with
    | some (.obj l) => some l
    | _ => none

/-- `handleCustomRequests` from the source: the three reserved control
methods, checked before the sequence tracker sees the message.  `none` is
the `NOT_HANDLED` sentinel; a failed `assert` on the payload is the fatal
schema error. -/
def handleCustomRequests (method : String) (params : Option JSONValue) :
    Option (Except MockError CustomAction) :=
  if method = "$/sleep" then
    some (match params with
      | some (.num _) => .ok .sleepDone
      | _ => .error .templateSchema)
  else if method = "$/terminate" then
    some (match params with
      | some (.num n) => .ok (.terminate n)
      | _ => .error .templateSchema)
  else if method = "$/setTemplateParams" then
    some (match params with
      | some (.obj fields) =>
        if fields.all fun kv => kv.1 == "expand" || kv.1 == "replace" then
          .ok (.setParams (toTemplateParams fields))
        else .error .templateSchema
      | _ => .error .templateSchema)
  else none

/-- What the request handler does short of exiting: reply to the client,
or terminate the process with the requested status. -/
inductive CoreOutcome where
  | reply (result : Option JSONValue)
  | terminate (code : Int)

/-- The body of `connection.onRequest` inside its `try`: control methods
first; then the current sequence slot is consulted (an exhausted cursor
reads `undefined`, which the specification calls `UnexpectedMessageError`);
an ordered request slot must match and advances the cursor; an unordered
group marks the first matching unreceived member and advances the cursor
only when the group completes; a notification slot receiving a request is
fatal. -/
def handleRequestCore (test : TestSetup)
    (env : String → Option JSONValue → Option JSONValue) (fuel : Nat)
    (st : ServerState) (method : String) (params : Option JSONValue) :
    Except MockError (CoreOutcome × ServerState) :=
  match handleCustomRequests method params with
  | some (.error e) => .error e
  | some (.ok .sleepDone) => .ok (.reply none, st)
  | some (.ok (.terminate c)) => .ok (.terminate c, st)
  | some (.ok (.setParams tp)) =>
    .ok (.reply none, { st with templateParams := tp })
  | none =>
    match test.sequence[st.sequenceIndex]? with
    | none => .error .unexpectedMessage
    | some (.msg msg) =>
      match msg.kind with
      | .notification => .error .unexpectedMessage
      | .request =>
        match matchMessage st.templateParams fuel msg method params with
        | .error e => .error e
        | .ok false => .error .sequenceMismatch
        | .ok true =>
          let st' := { st with sequenceIndex := st.sequenceIndex + 1 }
          match msg.intermediate with
          | none => .ok (.reply msg.result, st')
          | some l =>
            match processIntermediate st.templateParams env fuel l with
            | .error e => .error e
            | .ok () => .ok (.reply msg.result, st')
    | some (.unordered content) =>
      let received :=
        if st.unorderedReceived.length == 0 then
          List.replicate content.length false
        else st.unorderedReceived
      match findUnorderedMatch st.templateParams fuel received method params
          0 content with
      | .error e => .error e
      | .ok none => .error .sequenceMismatch
      | .ok (some (i, option)) =>
        let received' := received.set i true
        let st' := { st with
          unorderedReceived := received'
          sequenceIndex :=
            if received'.all (fun b => b) then st.sequenceIndex + 1
            else st.sequenceIndex }
        match option.intermediate with
        | none => .ok (.reply option.result, st')
        | some l =>
          match processIntermediate st.templateParams env fuel l with
          | .error e => .error e
          | .ok () => .ok (.reply option.result, st')

/-- What the process does with one inbound request: answer it, or exit. -/
inductive HandlerResult where
  | reply (result : Option JSONValue)
  | exit (code : Int)

/-- `connection.onRequest` with its surrounding `try`/`catch`: every error
of the core is reported and the process exits with status 1. -/
def handleRequest (test : TestSetup)
    (env : String → Option JSONValue → Option JSONValue) (fuel : Nat)
    (st : ServerState) (method : String) (params : Option JSONValue) :
    HandlerResult × ServerState :=
  match handleRequestCore test env fuel st method params with
  | .ok (.reply r, st') => (.reply r, st')
  | .ok (.terminate c, st') => (.exit c, st')
  | .error _ => (.exit 1, st)

/-- Feed a list of inbound requests to the server one after the other;
stop at the first process exit and report its status. -/
def runRequests (test : TestSetup)
    (env : String → Option JSONValue → Option JSONValue) (fuel : Nat) :
    ServerState → List (String × Option JSONValue) →
    Option Int × ServerState
  | st, [] => (none, st)
  | st, (method, params) :: rest =>
    match handleRequest test env fuel st method params with
    | (.reply _, st') => runRequests test env fuel st' rest
    | (.exit c, st') => (some c, st')

/-! ### Shared concrete instances used by several claims -/

/-- Empty template parameters. -/
def tp0 : TemplateParams := ⟨none, none⟩

/-- `expand = {a: "x", b: "yy"}`. -/
def tpAB : TemplateParams := ⟨some [("a", "x"), ("b", "yy")], none⟩

/-- `expand = {a: "123", b: "4"}`. -/
def tpAB2 : TemplateParams := ⟨some [("a", "123"), ("b", "4")], none⟩

/-- `replace = {k: 42}`. -/
def tp42 : TemplateParams := ⟨none, some [("k", .num 42)]⟩

/-- An environment whose replies to outbound requests are all `undefined`. -/
def env0 : String → Option JSONValue → Option JSONValue := fun _ _ => none

/-- The initial server state: cursor 0, no completion array, empty
template parameters. -/
def st0 : ServerState := ⟨0, [], tp0⟩

/-! ### Template engine lemmas -/

lemma matchAt_eq_some {l : List Char} {name : String} {post : List Char}
    (h : matchAt l = some (name, post)) :
    l = '$' :: '\x7b' :: (name.data ++ '\x7d' :: post) ∧ name.data ≠ [] := by
  rw [matchAt.eq_def] at h
  split at h
  · next rest =>
    split at h
    · next tail heq =>
      cases hws : (rest.takeWhile isWordChar).isEmpty with
      | true => simp [hws] at h
      | false =>
        simp only [hws, Bool.false_eq_true, if_false, Option.some.injEq,
          Prod.mk.injEq] at h
        obtain ⟨h1, h2⟩ := h
        subst h1 h2
        have hsplit := List.takeWhile_append_dropWhile (p := isWordChar) (l := rest)
        rw [heq] at hsplit
        refine ⟨?_, ?_⟩
        · show '$' :: '\x7b' :: rest
            = '$' :: '\x7b' :: (rest.takeWhile isWordChar ++ '\x7d' :: tail)
          rw [hsplit]
        · show rest.takeWhile isWordChar ≠ []
          intro hnil
          rw [hnil] at hws
          simp at hws
    · exact absurd h (by simp)
  · exact absurd h (by simp)

lemma findFirst_eq_some {s pre post : List Char} {name : String}
    (h : findFirst s = some (pre, name, post)) :
    s = pre ++ '$' :: '\x7b' :: (name.data ++ '\x7d' :: post) ∧
      name.data ≠ [] := by
  induction s generalizing pre with
  | nil => exact absurd h (by simp [findFirst])
  | cons c cs ih =>
    rw [findFirst] at h
    split at h
    · next name' post' hm =>
      injection h with h'
      injection h' with h1 h2
      injection h2 with h2 h3
      subst h1 h2 h3
      obtain ⟨hdec, hne⟩ := matchAt_eq_some hm
      exact ⟨by rw [hdec]; rfl, hne⟩
    · next hm =>
      split at h
      · next pre' name' post' hf =>
        injection h with h'
        injection h' with h1 h2
        injection h2 with h2 h3
        subst h2 h3
        obtain ⟨hdec, hne⟩ := ih hf
        refine ⟨?_, hne⟩
        rw [← h1, hdec]
        rfl
      · exact absurd h (by simp)

/-- The splice-and-adjust loop of the source computes exactly the
structural left-to-right substitution of the specification, for every
fuel, every processed prefix and every remaining input: the source's
`lastIndex` arithmetic (which accounts for the full `${`/`}` delimiter
length) never rescans processed text and never skips or corrupts a later
placeholder. -/
lemma expandLoopAux_eq_spec (lk : String → Option String) :
    ∀ (n : Nat) (done rest : List Char),
      expandLoopAux lk n (done ++ rest) done.length
        = Except.map (fun r => done ++ r) (expandSpecAux lk n rest) := by
  intro n
  induction n with
  | zero => intro done rest; simp [expandLoopAux, expandSpecAux, Except.map]
  | succ n ih =>
    intro done rest
    rw [expandLoopAux, expandSpecAux, List.drop_left]
    cases hf : findFirst rest with
    | none => simp [Except.map]
    | some tr =>
      obtain ⟨pre, name, post⟩ := tr
      obtain ⟨hdec, -⟩ := findFirst_eq_some hf
      subst hdec
      cases hlk : lk name with
      | none => simp [hlk, Except.map]
      | some repl =>
        simp only [hlk]
        have hname : name.length = name.data.length := rfl
        have hrepl : repl.length = repl.data.length := rfl
        have htake :
            (done ++ (pre ++ '$' :: '\x7b' :: (name.data ++ '\x7d' :: post))).take
              (done.length + pre.length) = done ++ pre := by
          rw [← List.append_assoc,
            show done.length + pre.length = (done ++ pre).length
              from (List.length_append _ _).symm]
          exact List.take_left _ _
        have hdrop :
            (done ++ (pre ++ '$' :: '\x7b' :: (name.data ++ '\x7d' :: post))).drop
              (done.length + pre.length + name.length + 3) = post := by
          have h2 : done ++ (pre ++ '$' :: '\x7b' :: (name.data ++ '\x7d' :: post))
              = (done ++ pre ++ ('$' :: '\x7b' :: name.data ++ ['\x7d'])) ++ post := by
            simp only [List.append_assoc, List.cons_append, List.singleton_append,
              List.nil_append]
          have h3 : done.length + pre.length + name.length + 3
              = (done ++ pre ++ ('$' :: '\x7b' :: name.data ++ ['\x7d'])).length := by
            simp only [List.length_append, List.length_cons, List.length_nil, hname]
            omega
          rw [h2, h3]
          exact List.drop_left _ _
        have hadj : ∀ a L r : Nat, adjustLastIndex a (a + L + 3) r = a + r := by
          intro a L r
          unfold adjustLastIndex
          omega
        rw [htake, hdrop, hadj, hrepl]
        have key := ih (done ++ pre ++ repl.data) post
        simp only [List.append_assoc, List.length_append, Nat.add_assoc] at key ⊢
        rw [key]
        cases hs : expandSpecAux lk n post with
        | error e => simp [Except.map]
        | ok r => simp [Except.map, List.append_assoc]

lemma takeWhile_append_all {α : Type} (p : α → Bool) (l l' : List α)
    (h : ∀ a ∈ l, p a) : (l ++ l').takeWhile p = l ++ l'.takeWhile p := by
  induction l with
  | nil => simp
  | cons c cs ih =>
    simp only [List.cons_append, List.takeWhile_cons, h c (by simp)]
    rw [ih (fun a ha => h a (by simp [ha]))]
    simp

lemma dropWhile_append_all {α : Type} (p : α → Bool) (l l' : List α)
    (h : ∀ a ∈ l, p a) : (l ++ l').dropWhile p = l'.dropWhile p := by
  induction l with
  | nil => simp
  | cons c cs ih =>
    simp only [List.cons_append, List.dropWhile_cons, h c (by simp)]
    exact ih (fun a ha => h a (by simp [ha]))

lemma replaceWholeMatch_mk {nd : List Char} (hne : nd ≠ [])
    (hw : ∀ c ∈ nd, isWordChar c) :
    replaceWholeMatch (String.mk ('#' :: '\x7b' :: (nd ++ ['\x7d'])))
      = some (String.mk nd) := by
  have htw : (nd ++ ['\x7d']).takeWhile isWordChar = nd := by
    rw [takeWhile_append_all isWordChar nd ['\x7d'] hw]
    simp [List.takeWhile_cons, isWordChar]
  have hdw : (nd ++ ['\x7d']).dropWhile isWordChar = ['\x7d'] := by
    rw [dropWhile_append_all isWordChar nd ['\x7d'] hw]
    simp [List.dropWhile_cons, isWordChar]
  show (match (String.mk ('#' :: '\x7b' :: (nd ++ ['\x7d']))).data with
    | '#' :: '\x7b' :: rest =>
      let ws := rest.takeWhile isWordChar
      match rest.dropWhile isWordChar with
      | ['\x7d'] => if ws.isEmpty then none else some (String.mk ws)
      | _ => none
    | _ => none) = some (String.mk nd)
  show (let ws := (nd ++ ['\x7d']).takeWhile isWordChar
    match (nd ++ ['\x7d']).dropWhile isWordChar with
    | ['\x7d'] => if ws.isEmpty then none else some (String.mk ws)
    | _ => none) = some (String.mk nd)
  rw [hdw]
  simp only [htw]
  rw [if_neg (by simp [hne])]

/-- C2: the `${name}` expansion loop substitutes every placeholder whose
name is bound, recomputing the scan position correctly after each
substitution — it equals, at every fuel and from every processed prefix,
the structural left-to-right substitution `expandSpecAux`; in particular
`${a}${b}` with `{a: "x", b: "yy"}` yields `"xyy"`, `${a}-${b}` with
`{a: "123", b: "4"}` yields `"123-4"`, and an unbound name fails with the
template-lookup error. -/
theorem c2_expansion_offsets :
    (∀ (lk : String → Option String) (n : Nat) (done rest : List Char),
        expandLoopAux lk n (done ++ rest) done.length
          = Except.map (fun r => done ++ r) (expandSpecAux lk n rest)) ∧
    (∀ (lk : String → Option String) (s : List Char) (n : Nat),
        expandLoopAux lk n s 0 = expandSpecAux lk n s) ∧
    processTemplate tpAB "${a}${b}" = .ok (.str "xyy") ∧
    processTemplate tpAB2 "${a}-${b}" = .ok (.str "123-4") ∧
    processTemplate tp0 "${missing}" = .error .templateLookup := by
  refine ⟨expandLoopAux_eq_spec, ?_, rfl, rfl, rfl⟩
  intro lk s n
  have h := expandLoopAux_eq_spec lk n [] s
  simp only [List.nil_append, List.length_nil] at h
  rw [h]
  cases expandSpecAux lk n s <;> simp [Except.map]

/-- C5: a string that is exactly `#{name}` is replaced by the `replace`
parameter bound to `name`, verbatim and preserving its JSON type, and
fails with the template-lookup error when `name` is unbound; in
particular `#{k}` with `replace = {k: 42}` yields the number `42`. -/
theorem c5_replace_whole_string :
    (∀ (nd : List Char) (tp : TemplateParams),
      nd ≠ [] → (∀ c ∈ nd, isWordChar c) →
      processTemplate tp (String.mk ('#' :: '\x7b' :: (nd ++ ['\x7d'])))
        = (match lookupReplace tp (String.mk nd) with
           | some v => Except.ok v
           | none => Except.error MockError.templateLookup)) ∧
    processTemplate tp42 "#{k}" = .ok (.num 42) ∧
    processTemplate tp0 "#{k}" = .error .templateLookup := by
  refine ⟨?_, rfl, rfl⟩
  intro nd tp hne hw
  unfold processTemplate
  rw [replaceWholeMatch_mk hne hw]

/-- Witness for C5 at the concrete input `#{k}` with `replace = {k: 42}`. -/
theorem c5_replace_whole_string_witness :
    processTemplate tp42 (String.mk ('#' :: '\x7b' :: (['k'] ++ ['\x7d'])))
      = .ok (.num 42) := by
  have h := c5_replace_whole_string.1 ['k'] tp42 (by decide) (by decide)
  rw [h]
  rfl

/-! ### Pattern matcher characterizations -/

lemma matchPairsWith_ok_true_iff
    (rec : JSONValue → JSONValue → Except MockError Bool) :
    ∀ (rs ts : List JSONValue), rs.length = ts.length →
      (matchPairsWith rec rs ts = .ok true ↔
        ∀ p ∈ rs.zip ts, rec p.1 p.2 = .ok true) := by
  intro rs
  induction rs with
  | nil => intro ts _; simp [matchPairsWith]
  | cons r rs ih =>
    intro ts hlen
    cases ts with
    | nil => simp at hlen
    | cons t ts =>
      have hlen' : rs.length = ts.length := by
        simpa using hlen
      simp only [matchPairsWith, List.zip_cons_cons, List.forall_mem_cons]
      cases hr : rec r t with
      | error e =>
        simp only [hr]
        constructor
        · intro hc; exact absurd hc (by simp)
        · intro hall; exact absurd hall.1 (by simp)
      | ok b =>
        cases b with
        | false =>
          simp only [hr]
          constructor
          · intro hc; exact absurd hc (by simp)
          · intro hall; exact absurd hall.1 (by simp)
        | true =>
          simp only [hr]
          rw [ih ts hlen']
          simp

lemma matchObjectsWith_ok_true_iff (tp : TemplateParams)
    (rec : JSONValue → JSONValue → Except MockError Bool) :
    ∀ (rf tf : List (String × JSONValue)),
      (matchObjectsWith tp rec rf tf = .ok true ↔
        ∀ p ∈ rf, ∃ k w, processTemplate tp p.1 = .ok (.str k) ∧
          tf.lookup k = some w ∧ rec p.2 w = .ok true) := by
  intro rf
  induction rf with
  | nil => intro tf; simp [matchObjectsWith]
  | cons kv rest ih =>
    intro tf
    obtain ⟨kt, v⟩ := kv
    simp only [matchObjectsWith, List.forall_mem_cons]
    cases hpt : processTemplate tp kt with
    | error e =>
      simp only [hpt]
      constructor
      · intro hc; exact absurd hc (by simp)
      · intro hall
        obtain ⟨k, w, hk, -, -⟩ := hall.1
        exact absurd hk (by simp)
    | ok key =>
      cases key with
      | str k =>
        simp only [hpt]
        cases hlu : tf.lookup k with
        | none =>
          simp only [hlu]
          constructor
          · intro hc; exact absurd hc (by simp)
          · intro hall
            obtain ⟨k', w', hk', hlu', -⟩ := hall.1
            have hkk : k = k' := JSONValue.str.inj (Except.ok.inj hk')
            rw [← hkk, hlu] at hlu'
            exact absurd hlu' (by simp)
        | some w =>
          simp only [hlu]
          cases hr : rec v w with
          | error e =>
            simp only [hr]
            constructor
            · intro hc; exact absurd hc (by simp)
            · intro hall
              obtain ⟨k', w', hk', hlu', hr'⟩ := hall.1
              have hkk : k = k' := JSONValue.str.inj (Except.ok.inj hk')
              rw [← hkk, hlu] at hlu'
              have hww : w = w' := Option.some.inj hlu'
              rw [← hww, hr] at hr'
              exact absurd hr' (by simp)
          | ok b =>
            cases b with
            | false =>
              simp only [hr]
              constructor
              · intro hc; exact absurd hc (by simp)
              · intro hall
                obtain ⟨k', w', hk', hlu', hr'⟩ := hall.1
                have hkk : k = k' := JSONValue.str.inj (Except.ok.inj hk')
                rw [← hkk, hlu] at hlu'
                have hww : w = w' := Option.some.inj hlu'
                rw [← hww, hr] at hr'
                exact absurd hr' (by simp)
            | true =>
              simp only [hr]
              rw [ih tf]
              constructor
              · intro hrest
                exact ⟨⟨k, w, rfl, hlu, hr⟩, hrest⟩
              · intro hall
                exact hall.2
      | obj l =>
        simp only [hpt]
        constructor
        · intro hc; exact absurd hc (by simp)
        · intro hall
          obtain ⟨k', w', hk', -, -⟩ := hall.1
          exact absurd hk' (by simp)
      | arr l =>
        simp only [hpt]
        constructor
        · intro hc; exact absurd hc (by simp)
        · intro hall
          obtain ⟨k', w', hk', -, -⟩ := hall.1
          exact absurd hk' (by simp)
      | num a =>
        simp only [hpt]
        constructor
        · intro hc; exact absurd hc (by simp)
        · intro hall
          obtain ⟨k', w', hk', -, -⟩ := hall.1
          exact absurd hk' (by simp)
      | bool a =>
        simp only [hpt]
        constructor
        · intro hc; exact absurd hc (by simp)
        · intro hall
          obtain ⟨k', w', hk', -, -⟩ := hall.1
          exact absurd hk' (by simp)
      | null =>
        simp only [hpt]
        constructor
        · intro hc; exact absurd hc (by simp)
        · intro hall
          obtain ⟨k', w', hk', -, -⟩ := hall.1
          exact absurd hk' (by simp)

lemma matchDeepEqualF_obj_obj (tp : TemplateParams) (f : Nat)
    (rf tf : List (String × JSONValue)) :
    matchDeepEqualF tp (f + 1) (.obj rf) (.obj tf)
      = matchObjectsWith tp (matchDeepEqualF tp f) rf tf := rfl

lemma matchDeepEqualF_arr_arr (tp : TemplateParams) (f : Nat)
    (rs ts : List JSONValue) :
    matchDeepEqualF tp (f + 1) (.arr rs) (.arr ts)
      = matchArraysWith (matchDeepEqualF tp f) rs ts := rfl

/-- C3: the matcher's asymmetric subset semantics.  An object pattern
matches exactly when every pattern entry, after key-template expansion,
is present in the live object with a recursively matching value (extra
live keys are ignored); an array pattern of a different length never
matches, and one of equal length matches exactly when the elements match
pairwise in order.  The two concrete examples of the specification are
included. -/
theorem c3_subset_semantics :
    (∀ (tp : TemplateParams) (f : Nat) (rf tf : List (String × JSONValue)),
      matchDeepEqualF tp (f + 1) (.obj rf) (.obj tf) = .ok true ↔
        ∀ p ∈ rf, ∃ k w, processTemplate tp p.1 = .ok (.str k) ∧
          tf.lookup k = some w ∧ matchDeepEqualF tp f p.2 w = .ok true) ∧
    (∀ (tp : TemplateParams) (f : Nat) (rs ts : List JSONValue),
      rs.length ≠ ts.length →
        matchDeepEqualF tp (f + 1) (.arr rs) (.arr ts) = .ok false) ∧
    (∀ (tp : TemplateParams) (f : Nat) (rs ts : List JSONValue),
      matchDeepEqualF tp (f + 1) (.arr rs) (.arr ts) = .ok true ↔
        rs.length = ts.length ∧
          ∀ p ∈ rs.zip ts, matchDeepEqualF tp f p.1 p.2 = .ok true) ∧
    matchDeepEqualF tp0 5 (.obj [("a", .num 1)])
        (.obj [("a", .num 1), ("b", .num 2)]) = .ok true ∧
    matchDeepEqualF tp0 5 (.arr [.num 1, .num 2])
        (.arr [.num 1, .num 2, .num 3]) = .ok false := by
  refine ⟨?_, ?_, ?_, rfl, rfl⟩
  · intro tp f rf tf
    rw [matchDeepEqualF_obj_obj]
    exact matchObjectsWith_ok_true_iff tp (matchDeepEqualF tp f) rf tf
  · intro tp f rs ts hne
    rw [matchDeepEqualF_arr_arr]
    unfold matchArraysWith
    rw [if_neg hne]
  · intro tp f rs ts
    rw [matchDeepEqualF_arr_arr]
    unfold matchArraysWith
    by_cases hlen : rs.length = ts.length
    · rw [if_pos hlen, matchPairsWith_ok_true_iff _ rs ts hlen]
      simp [hlen]
    · rw [if_neg hlen]
      simp [hlen]

/-- Witness for C3: the length-mismatch conjunct applied to the concrete
arrays `[1]` and `[]`. -/
theorem c3_subset_semantics_witness :
    [JSONValue.num 1].length ≠ ([] : List JSONValue).length ∧
    matchDeepEqualF tp0 1 (.arr [.num 1]) (.arr []) = .ok false :=
  ⟨by decide, c3_subset_semantics.2.1 tp0 0 [.num 1] [] (by decide)⟩

/-! ### Message matching and handler claims -/

/-- C10: `matchMessage` requires the presence of params to agree exactly
between the scripted step and the live message, in addition to method
equality.  A step without a params pattern matches exactly the messages
without params; a step with a params pattern never matches a message
without params; and a successful match implies method equality and
presence agreement. -/
theorem c10_params_presence :
    (∀ (tp : TemplateParams) (fuel : Nat) (msg : TestMessage)
        (method : String) (params : Option JSONValue),
      msg.method = method → msg.params = none →
        matchMessage tp fuel msg method params = .ok params.isNone) ∧
    (∀ (tp : TemplateParams) (fuel : Nat) (msg : TestMessage)
        (method : String) (pp : JSONValue),
      msg.method = method → msg.params = some pp →
        matchMessage tp fuel msg method none = .ok false) ∧
    (∀ (tp : TemplateParams) (fuel : Nat) (msg : TestMessage)
        (method : String) (params : Option JSONValue),
      matchMessage tp fuel msg method params = .ok true →
        msg.method = method ∧ (msg.params.isNone ↔ params.isNone)) := by
  refine ⟨?_, ?_, ?_⟩
  · intro tp fuel msg method params hm hp
    simp [matchMessage, hm, hp]
  · intro tp fuel msg method pp hm hp
    simp [matchMessage, hm, hp]
  · intro tp fuel msg method params h
    by_cases hm : msg.method = method
    · refine ⟨hm, ?_⟩
      cases hp : msg.params with
      | none =>
        simp only [matchMessage, if_pos hm, hp] at h
        have h2 := Except.ok.inj h
        cases params with
        | none => simp [hp]
        | some p => simp at h2
      | some mp =>
        cases params with
        | none =>
          simp only [matchMessage, if_pos hm, hp] at h
          simp at h
        | some p => simp [hp]
    · unfold matchMessage at h
      rw [if_neg hm] at h
      exact absurd (Except.ok.inj h) (by simp)

/-- Witness for C10: a step without params matches a live message without
params, and a step with params rejects a live message without params. -/
theorem c10_params_presence_witness :
    matchMessage tp0 1 (.mk .request "x" none none none) "x" none
        = .ok true ∧
    matchMessage tp0 1 (.mk .request "x" (some (.num 1)) none none) "x" none
        = .ok false := by
  constructor
  · have h := c10_params_presence.1 tp0 1 (.mk .request "x" none none none)
      "x" none rfl rfl
    simpa using h
  · exact c10_params_presence.2.1 tp0 1
      (.mk .request "x" (some (.num 1)) none none) "x" (.num 1) rfl rfl

/-- The reserved control method names. -/
def controlMethods : List String :=
  ["$/sleep", "$/terminate", "$/setTemplateParams"]

lemma handleCustomRequests_not_control {method : String}
    (h : method ∉ controlMethods) (params : Option JSONValue) :
    handleCustomRequests method params = none := by
  simp only [controlMethods, List.mem_cons, List.mem_singleton, not_or] at h
  obtain ⟨h1, h2, h3, -⟩ := h
  unfold handleCustomRequests
  rw [if_neg h1, if_neg h2, if_neg h3]

/-- C7: an inbound `$/terminate` request carrying exit code `c` makes the
process exit with status `c` immediately, for every script, environment
and server state: control methods are intercepted before the sequence
tracker sees the message. -/
theorem c7_terminate_bypasses_script :
    ∀ (test : TestSetup) (env : String → Option JSONValue → Option JSONValue)
      (fuel : Nat) (st : ServerState) (c : Int),
      handleRequestCore test env fuel st "$/terminate" (some (.num c))
          = .ok (.terminate c, st) ∧
      handleRequest test env fuel st "$/terminate" (some (.num c))
          = (.exit c, st) := by
  intro test env fuel st c
  have hcore : handleRequestCore test env fuel st "$/terminate"
      (some (.num c)) = .ok (.terminate c, st) := by
    rw [handleRequestCore, handleCustomRequests]
    rw [if_neg (by decide), if_pos rfl]
  exact ⟨hcore, by rw [handleRequest, hcore]⟩

/-- The single-ordered-request script of the specification's example:
`{method: "foo", pattern: {"x": 1}}` with scripted result `7`. -/
def test4 : TestSetup :=
  ⟨"single ordered request", none,
    [.msg (.mk .request "foo" (some (.obj [("x", .num 1)])) none
      (some (.num 7)))]⟩

/-- C4: with the script holding the single ordered request step
`{method: "foo", pattern: {"x": 1}}`, the request `foo {"x": 1, "y": 9}`
succeeds, advances the cursor by one and returns the scripted result `7`,
while `foo {"x": 2}` is a sequence mismatch and makes the process exit
with status 1. -/
theorem c4_ordered_request_match_and_mismatch :
    handleRequest test4 env0 5 st0 "foo"
        (some (.obj [("x", .num 1), ("y", .num 9)]))
      = (.reply (some (.num 7)), ⟨1, [], tp0⟩) ∧
    handleRequestCore test4 env0 5 st0 "foo" (some (.obj [("x", .num 2)]))
      = .error .sequenceMismatch ∧
    handleRequest test4 env0 5 st0 "foo" (some (.obj [("x", .num 2)]))
      = (.exit 1, st0) :=
  ⟨rfl, rfl, rfl⟩

/-- C8: once the cursor is past the end of the script, every request
whose method is not a reserved control method is a fatal protocol
violation — the core reports the unexpected message and the process exits
with status 1 — while the three control requests are still handled
normally. -/
theorem c8_exhausted_is_fatal :
    ∀ (test : TestSetup) (env : String → Option JSONValue → Option JSONValue)
      (fuel : Nat) (st : ServerState),
      test.sequence.length ≤ st.sequenceIndex →
      (∀ (method : String) (params : Option JSONValue),
        method ∉ controlMethods →
          handleRequestCore test env fuel st method params
              = .error .unexpectedMessage ∧
          handleRequest test env fuel st method params = (.exit 1, st)) ∧
      (∀ t : Int, handleRequest test env fuel st "$/sleep" (some (.num t))
          = (.reply none, st)) ∧
      (∀ c : Int, handleRequest test env fuel st "$/terminate"
          (some (.num c)) = (.exit c, st)) ∧
      handleRequest test env fuel st "$/setTemplateParams" (some (.obj []))
          = (.reply none, { st with templateParams := toTemplateParams [] }) := by
  intro test env fuel st hlen
  refine ⟨?_, ?_, ?_, ?_⟩
  · intro method params hctl
    have hcore : handleRequestCore test env fuel st method params
        = .error .unexpectedMessage := by
      rw [handleRequestCore, handleCustomRequests_not_control hctl]
      rw [List.getElem?_eq_none hlen]
    exact ⟨hcore, by rw [handleRequest, hcore]⟩
  · intro t
    have hcore : handleRequestCore test env fuel st "$/sleep"
        (some (.num t)) = .ok (.reply none, st) := by
      rw [handleRequestCore, handleCustomRequests, if_pos rfl]
    rw [handleRequest, hcore]
  · intro c
    exact (c7_terminate_bypasses_script test env fuel st c).2
  · have hcore : handleRequestCore test env fuel st "$/setTemplateParams"
        (some (.obj [])) = .ok (.reply none,
          { st with templateParams := toTemplateParams [] }) := by
      rw [handleRequestCore, handleCustomRequests]
      rw [if_neg (by decide), if_neg (by decide), if_pos rfl]
      rfl
    rw [handleRequest, hcore]

/-- Witness for C8: the empty script is exhausted at cursor 0; the
non-control request `foo` exits with status 1, while the control requests
still work. -/
theorem c8_exhausted_is_fatal_witness :
    handleRequestCore ⟨"t", none, []⟩ env0 1 st0 "foo" none
        = .error .unexpectedMessage ∧
    handleRequest ⟨"t", none, []⟩ env0 1 st0 "foo" none = (.exit 1, st0) ∧
    handleRequest ⟨"t", none, []⟩ env0 1 st0 "$/terminate" (some (.num 3))
        = (.exit 3, st0) := by
  have h := c8_exhausted_is_fatal ⟨"t", none, []⟩ env0 1 st0 (by decide)
  have h1 := h.1 "foo" none (by decide)
  exact ⟨h1.1, h1.2, h.2.2.1 3⟩

/-- A step whose only reaction is an outbound request `r` expecting the
reply `1`, used to witness C6. -/
def msg6 : TestMessage :=
  .mk .request "go" none (some [.mk .request "r" none none (some (.num 1))])
    none

/-- A script holding only `msg6`. -/
def test6 : TestSetup := ⟨"one reaction", none, [.msg msg6]⟩

/-- C6: a `request` reaction's reply is verified with the reaction's
expected `result` as the pattern and the actual reply as the live value;
an `undefined` reply requires an `undefined` expected result and vice
versa; a failed verification propagates out of the reaction dispatcher
and makes the process exit with status 1 — it is never swallowed. -/
theorem c6_reaction_reply_verification :
    (∀ (tp : TemplateParams) (fuel : Nat),
        processRequestResult tp fuel none none = .ok ()) ∧
    (∀ (tp : TemplateParams) (fuel : Nat) (r : JSONValue),
        processRequestResult tp fuel (some r) none
          = .error .reactionResultMismatch) ∧
    (∀ (tp : TemplateParams) (fuel : Nat) (e : JSONValue),
        processRequestResult tp fuel none (some e)
          = .error .reactionResultMismatch) ∧
    (∀ (tp : TemplateParams) (fuel : Nat) (r e : JSONValue) (b : Bool),
        matchDeepEqualF tp fuel e r = .ok b →
          processRequestResult tp fuel (some r) (some e)
            = (if b then .ok () else .error .reactionResultMismatch)) ∧
    (∀ (tp : TemplateParams)
        (env : String → Option JSONValue → Option JSONValue) (fuel : Nat)
        (m : TestMessage) (rest : List TestMessage) (e : MockError),
        m.kind = .request →
        processRequestResult tp fuel (env m.method m.params) m.result
            = .error e →
        processIntermediate tp env fuel (m :: rest) = .error e) ∧
    (∀ (test : TestSetup)
        (env : String → Option JSONValue → Option JSONValue) (fuel : Nat)
        (st : ServerState) (msg : TestMessage) (l : List TestMessage)
        (method : String) (params : Option JSONValue) (e : MockError),
        handleCustomRequests method params = none →
        test.sequence[st.sequenceIndex]? = some (.msg msg) →
        msg.kind = .request →
        matchMessage st.templateParams fuel msg method params = .ok true →
        msg.intermediate = some l →
        processIntermediate st.templateParams env fuel l = .error e →
        handleRequestCore test env fuel st method params = .error e ∧
        handleRequest test env fuel st method params = (.exit 1, st)) := by
  refine ⟨fun _ _ => rfl, fun _ _ _ => rfl, fun _ _ _ => rfl, ?_, ?_, ?_⟩
  · intro tp fuel r e b h
    simp only [processRequestResult, h]
    cases b <;> rfl
  · intro tp env fuel m rest e hk hp
    simp only [processIntermediate, hk, hp]
  · intro test env fuel st msg l method params e hcustom hseq hkind hmatch
      hint hproc
    have hcore : handleRequestCore test env fuel st method params
        = .error e := by
      simp only [handleRequestCore, hcustom, hseq, hkind, hmatch, hint, hproc]
    exact ⟨hcore, by rw [handleRequest, hcore]⟩

/-- Witness for C6: with `msg6` matched, the environment replies
`undefined` where the scripted result `1` is expected, and the process
exits with status 1. -/
theorem c6_reaction_reply_verification_witness :
    processIntermediate tp0 env0 1
        [TestMessage.mk .request "r" none none (some (.num 1))]
      = .error .reactionResultMismatch ∧
    handleRequest test6 env0 1 st0 "go" none = (.exit 1, st0) := by
  refine ⟨rfl, ?_⟩
  exact (c6_reaction_reply_verification.2.2.2.2.2 test6 env0 1 st0 msg6
    [TestMessage.mk .request "r" none none (some (.num 1))] "go" none
    .reactionResultMismatch rfl rfl rfl rfl rfl rfl).2

/-! ### Unordered-group scan lemmas -/

lemma findUnorderedMatch_all_received (tp : TemplateParams) (fuel : Nat)
    (received : List Bool) (method : String) (params : Option JSONValue) :
    ∀ (cs : List TestMessage) (t : Nat),
      (∀ i, t ≤ i → i < t + cs.length → received.getD i false = true) →
      findUnorderedMatch tp fuel received method params t cs = .ok none := by
  intro cs
  induction cs with
  | nil => intro t _; rfl
  | cons c cs ih =>
    intro t h
    have ht : received.getD t false = true := h t le_rfl (by simp)
    rw [findUnorderedMatch, if_pos ht]
    exact ih (t + 1) (fun i h1 h2 => h i (by omega) (by simp at h2 ⊢; omega))

/-- C9: the completion array is allocated only when empty and is never
cleared, so after a group of `n1` members has completed, a later
unordered group with at most `n1` members finds all its member indices
already marked: every inbound non-control message addressed to it is
rejected as a sequence mismatch and the process exits with status 1. -/
theorem c9_completion_array_never_cleared :
    ∀ (test : TestSetup)
      (env : String → Option JSONValue → Option JSONValue) (fuel : Nat)
      (st : ServerState) (content2 : List TestMessage) (n1 : Nat)
      (method : String) (params : Option JSONValue),
      0 < n1 →
      st.unorderedReceived = List.replicate n1 true →
      test.sequence[st.sequenceIndex]? = some (.unordered content2) →
      content2.length ≤ n1 →
      method ∉ controlMethods →
      handleRequestCore test env fuel st method params
          = .error .sequenceMismatch ∧
      handleRequest test env fuel st method params = (.exit 1, st) := by
  intro test env fuel st content2 n1 method params hn1 hrec hseq hlen hctl
  have hcustom := handleCustomRequests_not_control hctl params
  have hlen0 : (st.unorderedReceived.length == 0) = false := by
    rw [hrec]
    simp
    omega
  have hscan : findUnorderedMatch st.templateParams fuel st.unorderedReceived
      method params 0 content2 = .ok none := by
    apply findUnorderedMatch_all_received
    intro i h1 h2
    rw [hrec]
    have hi : i < n1 := by omega
    simp [List.getD, List.getElem?_replicate, hi]
  have hcore : handleRequestCore test env fuel st method params
      = .error .sequenceMismatch := by
    simp only [handleRequestCore, hcustom, hseq, hlen0, Bool.false_eq_true,
      if_false, hscan]
  exact ⟨hcore, by rw [handleRequest, hcore]⟩

/-- The members of the two singleton unordered groups of `test9`. -/
def mA : TestMessage := .mk .request "a" none none none

def mB : TestMessage := .mk .request "b" none none none

/-- A script holding two unordered groups of one member each. -/
def test9 : TestSetup :=
  ⟨"two unordered groups", none, [.unordered [mA], .unordered [mB]]⟩

/-- The state after the first group of `test9` completed. -/
def st9 : ServerState := ⟨1, [true], tp0⟩

/-- Witness for C9: after the first singleton group of `test9` completes,
the message scripted for the second group is rejected and the process
exits with status 1. -/
theorem c9_completion_array_never_cleared_witness :
    runRequests test9 env0 1 st0 [("a", none)] = (none, st9) ∧
    handleRequest test9 env0 1 st9 "b" none = (.exit 1, st9) := by
  refine ⟨rfl, ?_⟩
  exact (c9_completion_array_never_cleared test9 env0 1 st9 [mB] 1 "b" none
    (by decide) rfl rfl (by decide) (by decide)).2

/-! ### Unordered groups: arrival-order independence (C1) -/

/-- Default message used with `List.getD` when indexing group members. -/
def dfltMsg : TestMessage := .mk .request "" none none none

/-- The completion array of a group of `N` members of which exactly the
members listed in `S` have been received. -/
def mark (N : Nat) (S : List Nat) : List Bool :=
  (List.range N).map (fun i => decide (i ∈ S))

lemma mark_nil (N : Nat) : mark N [] = List.replicate N false := by
  simp [mark, List.map_const']

lemma mark_length (N : Nat) (S : List Nat) : (mark N S).length = N := by
  simp [mark]

lemma mark_getD (N : Nat) (S : List Nat) {i : Nat} (h : i < N) :
    (mark N S).getD i false = decide (i ∈ S) := by
  unfold mark
  rw [List.getD_eq_getElem?_getD, List.getElem?_map, List.getElem?_range h]
  rfl

lemma mark_getD_ge (N : Nat) (S : List Nat) {i : Nat} (h : N ≤ i) :
    (mark N S).getD i false = false := by
  rw [List.getD_eq_getElem?_getD, List.getElem?_eq_none]
  · rfl
  · simp [mark, h]

lemma mark_set (N : Nat) (S : List Nat) {j : Nat} (hj : j < N) :
    (mark N S).set j true = mark N (j :: S) := by
  apply List.ext_getElem
  · simp [mark]
  · intro i h1 h2
    rw [List.getElem_set]
    have hi : i < N := by simpa [mark] using h2
    by_cases hij : j = i
    · subst hij
      simp [mark, List.getElem_map, List.getElem_range]
    · simp only [if_neg hij]
      simp only [mark, List.getElem_map, List.getElem_range]
      have hiff : (i ∈ j :: S) ↔ (i ∈ S) := by
        constructor
        · intro hmem
          rcases List.mem_cons.mp hmem with h' | h'
          · exact absurd h'.symm hij
          · exact h'
        · intro hmem
          exact List.mem_cons_of_mem _ hmem
      rw [decide_eq_decide.mpr hiff]

lemma mark_all (N : Nat) (S : List Nat) :
    ((mark N S).all (fun b => b) = true) ↔ ∀ i, i < N → i ∈ S := by
  simp [mark, List.all_map, List.all_eq_true, List.mem_range]

lemma mark_congr (N : Nat) {S1 S2 : List Nat}
    (h : ∀ i, i ∈ S1 ↔ i ∈ S2) : mark N S1 = mark N S2 := by
  unfold mark
  apply List.map_congr_left
  intro i _
  exact decide_eq_decide.mpr (h i)

lemma mark_univ (N : Nat) {S : List Nat} (h : ∀ i, i < N → i ∈ S) :
    mark N S = List.replicate N true := by
  apply List.ext_getElem
  · simp [mark]
  · intro i h1 h2
    have hi : i < N := by simpa [mark] using h2
    simp [mark, List.getElem_map, List.getElem_range, h i hi]

/-- The member scan finds exactly the unreceived member `j` when every
member matches the inbound message exactly when its index is `j`. -/
lemma findUnorderedMatch_first_hit (tp : TemplateParams) (fuel : Nat)
    (content : List TestMessage) (method : String)
    (params : Option JSONValue) (N : Nat) (hN : N = content.length)
    (S : List Nat) (j : Nat) (hj : j < N) (hjS : j ∉ S)
    (hmatch : ∀ i, i < N →
      matchMessage tp fuel (content.getD i dfltMsg) method params
        = .ok (decide (i = j))) :
    ∀ (cs : List TestMessage) (t : Nat), cs = content.drop t → t ≤ j →
      findUnorderedMatch tp fuel (mark N S) method params t cs
        = .ok (some (j, content.getD j dfltMsg)) := by
  intro cs
  induction cs with
  | nil =>
    intro t hcs ht
    have : content.length ≤ t := by
      rw [← List.drop_eq_nil_iff]
      exact hcs.symm
    omega
  | cons c cs ih =>
    intro t hcs ht
    have htlen : t < content.length := by omega
    have hdec := List.drop_eq_getElem_cons htlen
    rw [hdec] at hcs
    have hc : c = content.getD t dfltMsg := by
      rw [List.getD_eq_getElem?_getD, List.getElem?_eq_getElem htlen]
      exact (List.cons.injEq _ _ _ _ ▸ hcs).1
    have hcs' : cs = content.drop (t + 1) :=
      (List.cons.injEq _ _ _ _ ▸ hcs).2
    by_cases htj : t = j
    · subst htj
      have hrecv : (mark N S).getD t false = false := by
        rw [mark_getD N S hj]
        simp [hjS]
      rw [findUnorderedMatch, hrecv]
      simp only [Bool.false_eq_true, if_false]
      have hm := hmatch t hj
      rw [← hc] at hm
      have hd : (decide (t = t)) = true := by simp
      rw [hm, hd, hc]
    · have htj' : t < j := by omega
      rw [findUnorderedMatch]
      by_cases hts : t ∈ S
      · have hrecv : (mark N S).getD t false = true := by
          rw [mark_getD N S (by omega)]
          simp [hts]
        rw [hrecv, if_pos rfl]
        exact ih (t + 1) hcs' (by omega)
      · have hrecv : (mark N S).getD t false = false := by
          rw [mark_getD N S (by omega)]
          simp [hts]
        rw [hrecv]
        simp only [Bool.false_eq_true, if_false]
        have hm := hmatch t (by omega)
        rw [← hc] at hm
        rw [hm]
        have : (decide (t = j)) = false := by simp [htj]
        rw [this]
        exact ih (t + 1) hcs' (by omega)

/-- One inbound member message of the current unordered group: the first
matching unreceived member is marked, the cursor advances exactly when
the group is completed by it, and the member's scripted result is
returned. -/
lemma unordered_step (test : TestSetup)
    (env : String → Option JSONValue → Option JSONValue) (fuel : Nat)
    (k : Nat) (content : List TestMessage) (N : Nat) (tp : TemplateParams)
    (hseq : test.sequence[k]? = some (.unordered content))
    (hN : N = content.length) (hNpos : 0 < N)
    (hctrl : ∀ i, i < N → (content.getD i dfltMsg).method ∉ controlMethods)
    (hint : ∀ i, i < N → ∀ l,
      (content.getD i dfltMsg).intermediate = some l →
        processIntermediate tp env fuel l = .ok ())
    (hexcl : ∀ i j, i < N → j < N →
      matchMessage tp fuel (content.getD i dfltMsg)
          ((content.getD j dfltMsg).method) ((content.getD j dfltMsg).params)
        = .ok (decide (i = j)))
    (S : List Nat) (j : Nat) (hj : j < N) (hjS : j ∉ S)
    (st : ServerState) (hidx : st.sequenceIndex = k)
    (htp : st.templateParams = tp)
    (hrec : st.unorderedReceived = if S = [] then [] else mark N S) :
    handleRequest test env fuel st ((content.getD j dfltMsg).method)
        ((content.getD j dfltMsg).params)
      = (.reply ((content.getD j dfltMsg).result),
         { st with
            unorderedReceived := mark N (j :: S)
            sequenceIndex :=
              if ∀ i, i < N → i ∈ j :: S then k + 1 else k }) := by
  have hcustom : handleCustomRequests ((content.getD j dfltMsg).method)
      ((content.getD j dfltMsg).params) = none :=
    handleCustomRequests_not_control (hctrl j hj) _
  have hre : (if (st.unorderedReceived.length == 0) = true then
        List.replicate content.length false
      else st.unorderedReceived) = mark N S := by
    by_cases hSnil : S = []
    · subst hSnil
      rw [hrec]
      simp only [if_pos rfl]
      rw [if_pos (by simp)]
      rw [mark_nil, hN]
    · rw [hrec, if_neg hSnil]
      rw [if_neg (by simp [mark_length]; omega)]
  have hscan := findUnorderedMatch_first_hit tp fuel content
    ((content.getD j dfltMsg).method) ((content.getD j dfltMsg).params)
    N hN S j hj hjS (fun i hi => hexcl i j hi hj) content 0
    (List.drop_zero content).symm (Nat.zero_le j)
  have hcore : handleRequestCore test env fuel st
      ((content.getD j dfltMsg).method) ((content.getD j dfltMsg).params)
      = .ok (.reply ((content.getD j dfltMsg).result),
        { st with
          unorderedReceived := mark N (j :: S)
          sequenceIndex :=
            if ∀ i, i < N → i ∈ j :: S then k + 1 else k }) := by
    simp only [handleRequestCore, hcustom, hidx, htp, hseq, hre, hscan,
      mark_set N S hj]
    by_cases hcov : ∀ i, i < N → i ∈ j :: S
    · rw [if_pos ((mark_all N (j :: S)).mpr hcov), if_pos hcov]
      cases hI : (content.getD j dfltMsg).intermediate with
      | none => rfl
      | some l => simp only [hint j hj l hI]
    · rw [if_neg (fun h => hcov ((mark_all N (j :: S)).mp h)),
        if_neg hcov]
      cases hI : (content.getD j dfltMsg).intermediate with
      | none => rfl
      | some l => simp only [hint j hj l hI]
  rw [handleRequest, hcore]

/-- Feeding any duplicate-free list of member indices of the current
unordered group to the server marks exactly those members, advances the
cursor exactly when the group is completed, and leaves the template
parameters untouched. -/
lemma unordered_run (test : TestSetup)
    (env : String → Option JSONValue → Option JSONValue) (fuel : Nat)
    (k : Nat) (content : List TestMessage) (N : Nat) (tp : TemplateParams)
    (hseq : test.sequence[k]? = some (.unordered content))
    (hN : N = content.length) (hNpos : 0 < N)
    (hctrl : ∀ i, i < N → (content.getD i dfltMsg).method ∉ controlMethods)
    (hint : ∀ i, i < N → ∀ l,
      (content.getD i dfltMsg).intermediate = some l →
        processIntermediate tp env fuel l = .ok ())
    (hexcl : ∀ i j, i < N → j < N →
      matchMessage tp fuel (content.getD i dfltMsg)
          ((content.getD j dfltMsg).method) ((content.getD j dfltMsg).params)
        = .ok (decide (i = j))) :
    ∀ (pending S : List Nat),
      (S ++ pending).Nodup → (∀ x ∈ S ++ pending, x < N) →
      ¬(∀ i, i < N → i ∈ S) →
      ∀ st : ServerState, st.sequenceIndex = k → st.templateParams = tp →
        st.unorderedReceived = (if S = [] then [] else mark N S) →
        runRequests test env fuel st (pending.map (fun j =>
            ((content.getD j dfltMsg).method,
             (content.getD j dfltMsg).params)))
          = (none,
             ⟨if ∀ i, i < N → i ∈ S ++ pending then k + 1 else k,
              if S ++ pending = [] then [] else mark N (S ++ pending),
              tp⟩) := by
  intro pending
  induction pending with
  | nil =>
    intro S hnd hbound hncov st hidx htp hrec
    obtain ⟨idx, rec, tpf⟩ := st
    simp only [List.map_nil, runRequests, List.append_nil]
    rw [if_neg hncov]
    simp only at hidx htp hrec
    rw [hidx, htp, hrec]
  | cons j pending' ih =>
    intro S hnd hbound hncov st hidx htp hrec
    have hjN : j < N := hbound j (by simp)
    have hdis : S.Disjoint (j :: pending') := (List.nodup_append.mp hnd).2.2
    have hjS : j ∉ S := fun hin => hdis hin (by simp)
    have hstep := unordered_step test env fuel k content N tp hseq hN hNpos
      hctrl hint hexcl S j hjN hjS st hidx htp hrec
    simp only [List.map_cons, runRequests, hstep, htp]
    by_cases hcov' : ∀ i, i < N → i ∈ j :: S
    · have hpe : pending' = [] := by
        by_contra hne
        obtain ⟨x, hx⟩ := List.exists_mem_of_ne_nil pending' hne
        have hxN : x < N := hbound x (by simp [hx])
        rcases List.mem_cons.mp (hcov' x hxN) with h1 | h1
        · have hnd2 : (j :: pending').Nodup := (List.nodup_append.mp hnd).2.1
          rw [h1] at hx
          exact (List.nodup_cons.mp hnd2).1 hx
        · exact hdis h1 (by simp [hx])
      subst hpe
      simp only [List.map_nil, runRequests]
      rw [if_pos hcov']
      have hiff : ∀ i, i ∈ j :: S ↔ i ∈ S ++ [j] := by
        intro i
        simp [List.mem_append, List.mem_cons, or_comm]
      rw [if_pos (fun i hi => (hiff i).mp (hcov' i hi))]
      rw [if_neg (by simp)]
      rw [mark_congr N hiff]
    · rw [if_neg hcov']
      have heq : (S ++ [j]) ++ pending' = S ++ j :: pending' := by simp
      have hkey := ih (S ++ [j])
        (by rw [heq]; exact hnd)
        (by rw [heq]; exact hbound)
        (by
          intro hcv
          apply hcov'
          intro i hi
          have := hcv i hi
          simp only [List.mem_append, List.mem_singleton] at this
          rcases this with h1 | h1
          · exact List.mem_cons_of_mem _ h1
          · rw [h1]; exact List.mem_cons_self _ _)
        ⟨k, mark N (j :: S), tp⟩ rfl rfl
        (by
          rw [if_neg (by simp)]
          apply mark_congr
          intro i
          simp [List.mem_append, List.mem_cons, or_comm])
      rw [heq] at hkey
      exact hkey

/-- C1 (amended): for an unordered group of `N ≥ 1` members none of whose
methods is a reserved control method, whose reactions (if any) all
succeed, and whose member messages each match exactly their own member,
every one of the `N!` arrival orders of the `N` member messages leads to
the same final state — the cursor advanced by exactly one and all members
marked — and after any proper prefix of fewer than `N` distinct members
the cursor is unchanged and some member is still unmarked. -/
theorem c1_unordered_group_orders (test : TestSetup)
    (env : String → Option JSONValue → Option JSONValue) (fuel : Nat)
    (k : Nat) (content : List TestMessage) (N : Nat) (tp : TemplateParams)
    (hseq : test.sequence[k]? = some (.unordered content))
    (hN : N = content.length) (hNpos : 0 < N)
    (hctrl : ∀ i, i < N → (content.getD i dfltMsg).method ∉ controlMethods)
    (hint : ∀ i, i < N → ∀ l,
      (content.getD i dfltMsg).intermediate = some l →
        processIntermediate tp env fuel l = .ok ())
    (hexcl : ∀ i j, i < N → j < N →
      matchMessage tp fuel (content.getD i dfltMsg)
          ((content.getD j dfltMsg).method) ((content.getD j dfltMsg).params)
        = .ok (decide (i = j))) :
    (∀ (order : List Nat), order.Perm (List.range N) →
      ∀ st : ServerState, st.sequenceIndex = k → st.templateParams = tp →
        st.unorderedReceived = [] →
        runRequests test env fuel st (order.map (fun j =>
            ((content.getD j dfltMsg).method,
             (content.getD j dfltMsg).params)))
          = (none, ⟨k + 1, List.replicate N true, tp⟩)) ∧
    (∀ (pre suf : List Nat), (pre ++ suf).Perm (List.range N) → suf ≠ [] →
      ∀ st : ServerState, st.sequenceIndex = k → st.templateParams = tp →
        st.unorderedReceived = [] →
        (runRequests test env fuel st (pre.map (fun j =>
            ((content.getD j dfltMsg).method,
             (content.getD j dfltMsg).params)))).1 = none ∧
        (runRequests test env fuel st (pre.map (fun j =>
            ((content.getD j dfltMsg).method,
             (content.getD j dfltMsg).params)))).2.sequenceIndex = k ∧
        ∃ i, i < N ∧
          (runRequests test env fuel st (pre.map (fun j =>
              ((content.getD j dfltMsg).method,
               (content.getD j dfltMsg).params)))).2.unorderedReceived.getD
            i false = false) := by
  have hncov0 : ¬(∀ i, i < N → i ∈ ([] : List Nat)) := by
    intro h
    exact absurd (h 0 hNpos) (List.not_mem_nil 0)
  constructor
  · intro order hperm st hidx htp hrec
    have hnd : (([] : List Nat) ++ order).Nodup := by
      simpa using hperm.nodup_iff.mpr (List.nodup_range N)
    have hbound : ∀ x ∈ ([] : List Nat) ++ order, x < N := by
      intro x hx
      simp only [List.nil_append] at hx
      exact List.mem_range.mp (hperm.mem_iff.mp hx)
    have hrec' : st.unorderedReceived
        = (if ([] : List Nat) = [] then [] else mark N []) := by
      simpa using hrec
    have hrun := unordered_run test env fuel k content N tp hseq hN hNpos
      hctrl hint hexcl order [] hnd hbound hncov0 st hidx htp hrec'
    simp only [List.nil_append] at hrun
    have hcov : ∀ i, i < N → i ∈ order := by
      intro i hi
      exact hperm.mem_iff.mpr (List.mem_range.mpr hi)
    rw [if_pos hcov] at hrun
    have hone : order ≠ [] := by
      intro h0
      rw [h0] at hperm
      have := hperm.length_eq
      simp at this
      omega
    rw [if_neg hone, mark_univ N hcov] at hrun
    exact hrun
  · intro pre suf hperm hsuf st hidx htp hrec
    obtain ⟨x, hxsuf⟩ := List.exists_mem_of_ne_nil suf hsuf
    have hnd : (pre ++ suf).Nodup :=
      hperm.nodup_iff.mpr (List.nodup_range N)
    have hxN : x < N :=
      List.mem_range.mp (hperm.mem_iff.mp (List.mem_append_right pre hxsuf))
    have hxpre : x ∉ pre := by
      intro hxp
      exact (List.nodup_append.mp hnd).2.2 hxp hxsuf
    have hndp : (([] : List Nat) ++ pre).Nodup := by
      simpa using hnd.of_append_left
    have hboundp : ∀ y ∈ ([] : List Nat) ++ pre, y < N := by
      intro y hy
      simp only [List.nil_append] at hy
      exact List.mem_range.mp (hperm.mem_iff.mp (List.mem_append_left suf hy))
    have hrec' : st.unorderedReceived
        = (if ([] : List Nat) = [] then [] else mark N []) := by
      simpa using hrec
    have hrun := unordered_run test env fuel k content N tp hseq hN hNpos
      hctrl hint hexcl pre [] hndp hboundp hncov0 st hidx htp hrec'
    simp only [List.nil_append] at hrun
    have hncov : ¬(∀ i, i < N → i ∈ pre) := by
      intro h
      exact hxpre (h x hxN)
    rw [if_neg hncov] at hrun
    rw [hrun]
    refine ⟨rfl, rfl, ?_⟩
    by_cases hpre : pre = []
    · refine ⟨0, hNpos, ?_⟩
      rw [if_pos hpre]
      rfl
    · refine ⟨x, hxN, ?_⟩
      rw [if_neg hpre]
      show (mark N pre).getD x false = false
      rw [mark_getD N pre hxN]
      simp [hxpre]

/-- A group of two members with distinct methods `a` and `b`, used to
witness the amended C1. -/
def test1 : TestSetup := ⟨"one unordered group", none, [.unordered [mA, mB]]⟩

/-- Witness for C1: the reversed arrival order `b`, `a` of `test1`'s
two-member group completes the group and advances the cursor by one. -/
theorem c1_unordered_group_orders_witness :
    runRequests test1 env0 1 st0 [("b", none), ("a", none)]
      = (none, ⟨1, [true, true], tp0⟩) := by
  have hctrl : ∀ i, i < 2 →
      (([mA, mB] : List TestMessage).getD i dfltMsg).method
        ∉ controlMethods := by decide
  have hint : ∀ i, i < 2 → ∀ l,
      (([mA, mB] : List TestMessage).getD i dfltMsg).intermediate = some l →
        processIntermediate tp0 env0 1 l = .ok () := by
    intro i hi l hl
    match i, hi with
    | 0, _ => exact Option.noConfusion hl
    | 1, _ => exact Option.noConfusion hl
  have hexcl : ∀ i j, i < 2 → j < 2 →
      matchMessage tp0 1 (([mA, mB] : List TestMessage).getD i dfltMsg)
          ((([mA, mB] : List TestMessage).getD j dfltMsg).method)
          ((([mA, mB] : List TestMessage).getD j dfltMsg).params)
        = .ok (decide (i = j)) := by
    intro i j hi hj
    match i, j, hi, hj with
    | 0, 0, _, _ => rfl
    | 0, 1, _, _ => rfl
    | 1, 0, _, _ => rfl
    | 1, 1, _, _ => rfl
  have hperm : ([1, 0] : List Nat).Perm (List.range 2) := by decide
  exact (c1_unordered_group_orders test1 env0 1 0 [mA, mB] 2 tp0 rfl rfl
    (by omega) hctrl hint hexcl).1 [1, 0] hperm st0 rfl rfl rfl

/-- The overlapping group of the C1 counterexample: member 0's pattern
`{}` also matches member 1's message `{"a": 1}`. -/
def m0g : TestMessage := .mk .request "m" (some (.obj [])) none none

def m1g : TestMessage := .mk .request "m" (some (.obj [("a", .num 1)])) none
  none

/-- A script holding the single overlapping two-member unordered group. -/
def test1g : TestSetup :=
  ⟨"overlapping unordered group", none, [.unordered [m0g, m1g]]⟩

/-- Counterexample to C1 as stated: for the group `[m0g, m1g]` the two
arrival orders of its two member messages do not lead to the same final
state.  Sending member 1's message first lets it match member 0's
overlapping pattern, after which member 0's own message matches nothing:
the process exits with status 1 and the cursor never advances, while the
scripted order completes the group and advances the cursor by one. -/
theorem c1_unordered_group_orders_counterexample :
    runRequests test1g env0 5 st0
        [("m", some (.obj [("a", .num 1)])), ("m", some (.obj []))]
      = (some 1, ⟨0, [true, false], tp0⟩) ∧
    runRequests test1g env0 5 st0
        [("m", some (.obj [])), ("m", some (.obj [("a", .num 1)]))]
      = (none, ⟨1, [true, true], tp0⟩) :=
  ⟨rfl, rfl⟩

end MockServer

